import Mathlib

/-!
Shallow embedding of the `flagged_cl_args` crate (files `src/variant.rs`,
`src/args.rs`, `src/lib.rs`) together with theorems checking the crate's
natural-language specification against the code.

Modelling conventions:
* `u8` bit sets become `Nat` with explicit shift/mask arithmetic.
* `f32` values appear only through `f32::total_cmp` and `f32::from_str`;
  a float is therefore represented by its rank in the IEEE total order,
  an `Int`, and `f32::from_str` is an abstract parameter `pf`.
* `std::net::SocketAddr` is represented by its address and port numbers;
  `to_socket_addrs` (which may perform DNS I/O) is an abstract parameter `ps`.
* `HashMap<String, Variant>` is modelled by an association list with
  replace-on-insert semantics; lookups go through `getNamed`.
* fallible Rust functions returning `Result`/`Option` become `Except`/`Option`.
-/

/-- Model of `std::net::SocketAddr`: an address (covering the V4/V6 payload)
and a port.  Its derived `Ord` compares address first, then port. -/
structure SocketAddr where
  addr : Nat
  port : Nat
deriving DecidableEq

/-- Model of `enum Variant` from `src/variant.rs`.  The `float` payload is the
IEEE-total-order rank of the `f32`, see the module comment. -/
inductive Variant where
  | bool : Bool → Variant
  | int : Int → Variant
  | float : Int → Variant
  | socket : SocketAddr → Variant
  | path : String → Variant
  | str : String → Variant
deriving DecidableEq

/-- Model of `struct VariantFlag(u8)` from `src/variant.rs`. -/
structure VariantFlag where
  val : Nat
deriving DecidableEq

namespace VariantFlag

def BOOL_BIT : Nat := 0

def INT_BIT : Nat := 1

def FLOAT_BIT : Nat := 2

def SOCKET_BIT : Nat := 3

def PATH_BIT : Nat := 4

def STRING_BIT : Nat := 5

/-- Embeds `VariantFlag::new_unit`. -/
def new_unit : VariantFlag := ⟨0⟩

/-- Embeds `VariantFlag::bool`. -/
def bool : VariantFlag := ⟨1 <<< BOOL_BIT⟩

/-- Embeds `VariantFlag::or_bool`. -/
def or_bool (self : VariantFlag) : VariantFlag := ⟨1 <<< BOOL_BIT ||| self.val⟩

/-- Embeds `VariantFlag::int`. -/
def int : VariantFlag := ⟨1 <<< INT_BIT⟩

/-- Embeds `VariantFlag::or_int`. -/
def or_int (self : VariantFlag) : VariantFlag := ⟨1 <<< INT_BIT ||| self.val⟩

/-- Embeds `VariantFlag::float`. -/
def float : VariantFlag := ⟨1 <<< FLOAT_BIT⟩

/-- Embeds `VariantFlag::socket`. -/
def socket : VariantFlag := ⟨1 <<< SOCKET_BIT⟩

/-- Embeds `VariantFlag::or_socket`. -/
def or_socket (self : VariantFlag) : VariantFlag := ⟨1 <<< SOCKET_BIT ||| self.val⟩

/-- Embeds `VariantFlag::path`. -/
def path : VariantFlag := ⟨1 <<< PATH_BIT⟩

/-- Embeds `VariantFlag::or_path`. -/
def or_path (self : VariantFlag) : VariantFlag := ⟨1 <<< PATH_BIT ||| self.val⟩

/-- Embeds `VariantFlag::string`. -/
def string : VariantFlag := ⟨1 <<< STRING_BIT⟩

/-- Embeds `VariantFlag::or_string`. -/
def or_string (self : VariantFlag) : VariantFlag := ⟨1 <<< STRING_BIT ||| self.val⟩

/-- Embeds `VariantFlag::check_bit`: `self.0 >> bit & 1 != 0`. -/
def check_bit (self : VariantFlag) (bit : Nat) : Bool :=
  self.val >>> bit &&& 1 != 0

def bool_allowed (self : VariantFlag) : Bool := self.check_bit BOOL_BIT

def int_allowed (self : VariantFlag) : Bool := self.check_bit INT_BIT

def float_allowed (self : VariantFlag) : Bool := self.check_bit FLOAT_BIT

def socket_allowed (self : VariantFlag) : Bool := self.check_bit SOCKET_BIT

def path_allowed (self : VariantFlag) : Bool := self.check_bit PATH_BIT

def string_allowed (self : VariantFlag) : Bool := self.check_bit STRING_BIT

/-- Embeds `VariantFlag::is_unit`: `self.0 == 0`. -/
def is_unit (self : VariantFlag) : Bool := self.val == 0

end VariantFlag

/-- Embeds `bool::from_str`: succeeds exactly on the literals
`true` and `false`. -/
def boolFromStr (raw : String) : Option Bool :=
  if raw = "true" then some true
  else if raw = "false" then some false
  else none

/-- Helper for `i32FromStr`: a non-empty all-digit run interpreted in base 10,
negated when `neg`, and range-checked against the `i32` bounds. -/
def digitsToI32 (neg : Bool) (ds : List Char) : Option Int :=
  if ds = [] then none
  else if ds.all (fun c => c.isDigit) then
    let n : Nat := ds.foldl (fun acc c => acc * 10 + (c.toNat - 48)) 0
    let v : Int := if neg then -(n : Int) else (n : Int)
    if -(2 ^ 31) ≤ v ∧ v ≤ 2 ^ 31 - 1 then some v else none
  else none

/-- Embeds `i32::from_str`: optional sign, then decimal digits, with the
result required to fit in the 32-bit signed range. -/
def i32FromStr (raw : String) : Option Int :=
  match raw.toList with
  | [] => none
  | '+' :: ds => digitsToI32 false ds
  | '-' :: ds => digitsToI32 true ds
  | ds => digitsToI32 false ds

section Prims

variable (pf : String → Option Int) (ps : String → Option SocketAddr)

/-- Embeds `VariantFlag::parse` from `src/variant.rs` lines 173-198: the
`if let` chain trying bool, i32, f32, socket, path, string in order.
`pf` stands for `f32::from_str` and `ps` for the first result of
`to_socket_addrs` (see the module comment). -/
def VariantFlag.parse (self : VariantFlag) (raw : String) : Option Variant :=
  match (if self.bool_allowed then boolFromStr raw else none) with
  | some b => some (Variant.bool b)
  | none =>
  match (if self.int_allowed then i32FromStr raw else none) with
  | some i => some (Variant.int i)
  | none =>
  match (if self.float_allowed then pf raw else none) with
  | some f => some (Variant.float f)
  | none =>
  match (if self.socket_allowed then ps raw else none) with
  | some s => some (Variant.socket s)
  | none =>
  if self.path_allowed then some (Variant.path raw)
  else if self.string_allowed then some (Variant.str raw)
  else none

end Prims

/-! ### Comparison primitives

`cmpOLE` embeds the standard library `Ord::cmp` on totally ordered scalar
types (`u8`, `bool`, `i32`, the IEEE total order on `f32` via its rank, and
`Nat`-sized address components): compare by less-than, then equality. -/

def cmpOLE {α : Type} [LinearOrder α] (x y : α) : Ordering :=
  if x < y then Ordering.lt else if x = y then Ordering.eq else Ordering.gt

theorem cmpOLE_eq_lt {α : Type} [LinearOrder α] {x y : α} :
    cmpOLE x y = Ordering.lt ↔ x < y := by
  unfold cmpOLE
  split_ifs with h1 h2
  · exact iff_of_true rfl h1
  · exact iff_of_false (by simp) h1
  · exact iff_of_false (by simp) h1

theorem cmpOLE_eq_eq {α : Type} [LinearOrder α] {x y : α} :
    cmpOLE x y = Ordering.eq ↔ x = y := by
  unfold cmpOLE
  split_ifs with h1 h2
  · exact iff_of_false (by simp) (ne_of_lt h1)
  · exact iff_of_true rfl h2
  · exact iff_of_false (by simp) h2

theorem cmpOLE_swap {α : Type} [LinearOrder α] (x y : α) :
    (cmpOLE x y).swap = cmpOLE y x := by
  rcases lt_trichotomy x y with h | h | h
  · rw [cmpOLE, if_pos h, cmpOLE, if_neg (lt_asymm h), if_neg (ne_of_lt h).symm]
    rfl
  · subst h
    simp [cmpOLE, lt_irrefl, Ordering.swap]
  · rw [cmpOLE, if_neg (lt_asymm h), if_neg (ne_of_lt h).symm, cmpOLE, if_pos h]
    rfl

theorem cmpOLE_lt_trans {α : Type} [LinearOrder α] {x y z : α}
    (h1 : cmpOLE x y = Ordering.lt) (h2 : cmpOLE y z = Ordering.lt) :
    cmpOLE x z = Ordering.lt :=
  cmpOLE_eq_lt.mpr (lt_trans (cmpOLE_eq_lt.mp h1) (cmpOLE_eq_lt.mp h2))

theorem ordThen_eq_lt {a b : Ordering} :
    a.then b = Ordering.lt ↔ a = Ordering.lt ∨ (a = Ordering.eq ∧ b = Ordering.lt) := by
  cases a <;> simp [Ordering.then]

theorem ordThen_eq_eq {a b : Ordering} :
    a.then b = Ordering.eq ↔ a = Ordering.eq ∧ b = Ordering.eq := by
  cases a <;> simp [Ordering.then]

theorem ordThen_swap (a b : Ordering) : (a.then b).swap = a.swap.then b.swap := by
  cases a <;> cases b <;> rfl

/-- Embeds the derived `Ord` of `std::net::SocketAddr`: address, then port. -/
def socketCmp (a b : SocketAddr) : Ordering :=
  (cmpOLE a.addr b.addr).then (cmpOLE a.port b.port)

theorem socketCmp_eq_eq {a b : SocketAddr} : socketCmp a b = Ordering.eq ↔ a = b := by
  cases a
  cases b
  simp [socketCmp, ordThen_eq_eq, cmpOLE_eq_eq]

theorem socketCmp_swap (a b : SocketAddr) : (socketCmp a b).swap = socketCmp b a := by
  rw [socketCmp, ordThen_swap, cmpOLE_swap, cmpOLE_swap]
  rfl

theorem socketCmp_lt_trans {a b c : SocketAddr}
    (h1 : socketCmp a b = Ordering.lt) (h2 : socketCmp b c = Ordering.lt) :
    socketCmp a c = Ordering.lt := by
  rw [socketCmp, ordThen_eq_lt] at h1 h2 ⊢
  rcases h1 with h1 | ⟨h1e, h1p⟩ <;> rcases h2 with h2 | ⟨h2e, h2p⟩
  · exact Or.inl (cmpOLE_lt_trans h1 h2)
  · rw [cmpOLE_eq_eq] at h2e
    exact Or.inl (h2e ▸ h1)
  · rw [cmpOLE_eq_eq] at h1e
    exact Or.inl (h1e ▸ h2)
  · rw [cmpOLE_eq_eq] at h1e h2e
    exact Or.inr ⟨by rw [cmpOLE_eq_eq, h1e, h2e], cmpOLE_lt_trans h1p h2p⟩

/-- Lexicographic list comparison, used to embed `str`/`OsStr` ordering
(byte/codepoint order with shorter-is-smaller tie break). -/
def listCmp {α : Type} (c : α → α → Ordering) : List α → List α → Ordering
  | [], [] => Ordering.eq
  | [], _ :: _ => Ordering.lt
  | _ :: _, [] => Ordering.gt
  | x :: xs, y :: ys => (c x y).then (listCmp c xs ys)

theorem listCmp_eq_eq {α : Type} {c : α → α → Ordering}
    (hce : ∀ x y, c x y = Ordering.eq ↔ x = y) :
    ∀ l₁ l₂ : List α, listCmp c l₁ l₂ = Ordering.eq ↔ l₁ = l₂ := by
  intro l₁
  induction l₁ with
  | nil =>
    intro l₂
    cases l₂ <;> simp [listCmp]
  | cons x xs ih =>
    intro l₂
    cases l₂ with
    | nil => simp [listCmp]
    | cons y ys => simp [listCmp, ordThen_eq_eq, hce, ih]

theorem listCmp_swap {α : Type} {c : α → α → Ordering}
    (hcs : ∀ x y, (c x y).swap = c y x) :
    ∀ l₁ l₂ : List α, (listCmp c l₁ l₂).swap = listCmp c l₂ l₁ := by
  intro l₁
  induction l₁ with
  | nil =>
    intro l₂
    cases l₂ <;> rfl
  | cons x xs ih =>
    intro l₂
    cases l₂ with
    | nil => rfl
    | cons y ys =>
      show ((c x y).then (listCmp c xs ys)).swap = (c y x).then (listCmp c ys xs)
      rw [ordThen_swap, hcs, ih]

theorem listCmp_lt_trans {α : Type} {c : α → α → Ordering}
    (hce : ∀ x y, c x y = Ordering.eq ↔ x = y)
    (hct : ∀ x y z, c x y = Ordering.lt → c y z = Ordering.lt → c x z = Ordering.lt) :
    ∀ l₁ l₂ l₃ : List α, listCmp c l₁ l₂ = Ordering.lt → listCmp c l₂ l₃ = Ordering.lt →
      listCmp c l₁ l₃ = Ordering.lt := by
  intro l₁
  induction l₁ with
  | nil =>
    intro l₂ l₃ h1 h2
    cases l₂ with
    | nil => simp [listCmp] at h1
    | cons y ys =>
      cases l₃ with
      | nil => simp [listCmp] at h2
      | cons z zs => simp [listCmp]
  | cons x xs ih =>
    intro l₂ l₃ h1 h2
    cases l₂ with
    | nil => simp [listCmp] at h1
    | cons y ys =>
      cases l₃ with
      | nil => simp [listCmp] at h2
      | cons z zs =>
        rw [listCmp, ordThen_eq_lt] at h1 h2 ⊢
        rcases h1 with h1 | ⟨h1e, h1t⟩ <;> rcases h2 with h2 | ⟨h2e, h2t⟩
        · exact Or.inl (hct _ _ _ h1 h2)
        · rw [hce] at h2e
          exact Or.inl (h2e ▸ h1)
        · rw [hce] at h1e
          exact Or.inl (h1e ▸ h2)
        · rw [hce] at h1e h2e
          exact Or.inr ⟨by rw [hce, h1e, h2e], ih _ _ h1t h2t⟩

/-- Embeds `str`/`OsStr` comparison: lexicographic codepoint order (equal to
UTF-8 byte order). -/
def strCmp (s t : String) : Ordering :=
  listCmp cmpOLE s.toList t.toList

theorem strCmp_eq_eq {s t : String} : strCmp s t = Ordering.eq ↔ s = t := by
  rw [strCmp, listCmp_eq_eq (fun x y => cmpOLE_eq_eq)]
  exact ⟨fun h => String.ext h, fun h => h ▸ rfl⟩

theorem strCmp_swap (s t : String) : (strCmp s t).swap = strCmp t s :=
  listCmp_swap cmpOLE_swap s.toList t.toList

theorem strCmp_lt_trans {s t u : String}
    (h1 : strCmp s t = Ordering.lt) (h2 : strCmp t u = Ordering.lt) :
    strCmp s u = Ordering.lt :=
  listCmp_lt_trans (fun x y => cmpOLE_eq_eq) (fun x y z => cmpOLE_lt_trans)
    s.toList t.toList u.toList h1 h2

/-- Embeds `Variant::total_cmp` from `src/variant.rs` lines 221-251,
including the source's tuple constructions: the right-hand tuple reuses
`self` (here `a`) in its second slot for the Socket/Path/String branches,
exactly as the source does.  The wildcard arm models the source's
`unreachable!()`; it is never taken because equal first slots force equal
constructors. -/
def Variant.total_cmp (a b : Variant) : Ordering :=
  let lhs : Nat × Variant :=
    match a with
    | Variant.bool _ => (0, a)
    | Variant.int _ => (1, a)
    | Variant.float _ => (2, a)
    | Variant.socket _ => (3, a)
    | Variant.path _ => (4, a)
    | Variant.str _ => (5, a)
  let rhs : Nat × Variant :=
    match b with
    | Variant.bool _ => (0, b)
    | Variant.int _ => (1, b)
    | Variant.float _ => (2, b)
    | Variant.socket _ => (3, a)
    | Variant.path _ => (4, a)
    | Variant.str _ => (5, a)
  if lhs.fst == rhs.fst then
    match a, b with
    | Variant.bool l, Variant.bool r => cmpOLE l r
    | Variant.int l, Variant.int r => cmpOLE l r
    | Variant.float l, Variant.float r => cmpOLE l r
    | Variant.socket l, Variant.socket r => socketCmp l r
    | Variant.path l, Variant.path r => strCmp l r
    | Variant.str l, Variant.str r => strCmp l r
    | _, _ => Ordering.eq
  else
    cmpOLE lhs.fst rhs.fst

/-- The representation tag of a value, in the fixed precedence order
Bool < Int < Float < Socket < Path < String. -/
def Variant.tagNum : Variant → Nat
  | Variant.bool _ => 0
  | Variant.int _ => 1
  | Variant.float _ => 2
  | Variant.socket _ => 3
  | Variant.path _ => 4
  | Variant.str _ => 5

/-- Modelled from the spec's words (section 4.2): rank values first by
representation tag in the fixed order Bool < Int < Float < Socket < Path <
String; within equal tags compare by the representation's natural order. -/
def specTotalCmp (a b : Variant) : Ordering :=
  match a, b with
  | Variant.bool l, Variant.bool r => cmpOLE l r
  | Variant.int l, Variant.int r => cmpOLE l r
  | Variant.float l, Variant.float r => cmpOLE l r
  | Variant.socket l, Variant.socket r => socketCmp l r
  | Variant.path l, Variant.path r => strCmp l r
  | Variant.str l, Variant.str r => strCmp l r
  | _, _ => cmpOLE a.tagNum b.tagNum

theorem total_cmp_eq_spec (a b : Variant) : a.total_cmp b = specTotalCmp a b := by
  cases a <;> cases b <;> rfl

theorem specTotalCmp_eq_eq (a b : Variant) : specTotalCmp a b = Ordering.eq ↔ a = b := by
  cases a <;> cases b <;>
    simp [specTotalCmp, Variant.tagNum, cmpOLE_eq_eq, socketCmp_eq_eq, strCmp_eq_eq]

theorem specTotalCmp_swap (a b : Variant) : (specTotalCmp a b).swap = specTotalCmp b a := by
  cases a <;> cases b <;>
    first
      | exact cmpOLE_swap _ _
      | exact socketCmp_swap _ _
      | exact strCmp_swap _ _

theorem specTotalCmp_lt_trans {a b c : Variant}
    (h1 : specTotalCmp a b = Ordering.lt) (h2 : specTotalCmp b c = Ordering.lt) :
    specTotalCmp a c = Ordering.lt := by
  cases a <;> cases b <;> cases c <;>
    simp only [specTotalCmp, Variant.tagNum] at h1 h2 ⊢ <;>
    first
      | exact cmpOLE_lt_trans h1 h2
      | exact socketCmp_lt_trans h1 h2
      | exact strCmp_lt_trans h1 h2
      | decide
      | exact absurd h1 (by decide)
      | exact absurd h2 (by decide)

/-! ### The precedence chain, as the spec states it -/

/-- Modelled from the spec (sections 4.1 and 9): the i-th parse attempt of
the fixed precedence chain Bool, Int, Float, Socket, Path, String. -/
def attemptAt (pf : String → Option Int) (ps : String → Option SocketAddr)
    (raw : String) : Nat → Option Variant
  | 0 => (boolFromStr raw).map Variant.bool
  | 1 => (i32FromStr raw).map Variant.int
  | 2 => (pf raw).map Variant.float
  | 3 => (ps raw).map Variant.socket
  | 4 => some (Variant.path raw)
  | 5 => some (Variant.str raw)
  | _ => none

/-- Whether the i-th representation of the precedence chain is in the
constraint's allowed set. -/
def allowedAt (self : VariantFlag) : Nat → Bool
  | 0 => self.bool_allowed
  | 1 => self.int_allowed
  | 2 => self.float_allowed
  | 3 => self.socket_allowed
  | 4 => self.path_allowed
  | 5 => self.string_allowed
  | _ => false

/-- Modelled from the spec (sections 4.1 and 9): evaluate the ordered
(representation allowed?, attempt parse) pairs in fixed order, returning the
first success. -/
def firstAllowedSuccess (pf : String → Option Int) (ps : String → Option SocketAddr)
    (self : VariantFlag) (raw : String) : Option Variant :=
  (List.range 6).findSome? (fun i => if allowedAt self i then attemptAt pf ps raw i else none)

theorem parse_eq_firstAllowedSuccess (pf : String → Option Int)
    (ps : String → Option SocketAddr) (self : VariantFlag) (raw : String) :
    self.parse pf ps raw = firstAllowedSuccess pf ps self raw := by
  rw [firstAllowedSuccess, show List.range 6 = [0, 1, 2, 3, 4, 5] from rfl]
  simp only [List.findSome?_cons, List.findSome?_nil, allowedAt, attemptAt]
  rw [VariantFlag.parse]
  cases self.bool_allowed <;> cases boolFromStr raw <;>
    cases self.int_allowed <;> cases i32FromStr raw <;>
    cases self.float_allowed <;> cases pf raw <;>
    cases self.socket_allowed <;> cases ps raw <;>
    cases self.path_allowed <;> cases self.string_allowed <;> rfl

theorem attemptAt_tagNum (pf : String → Option Int) (ps : String → Option SocketAddr)
    (raw : String) : ∀ i v, attemptAt pf ps raw i = some v → v.tagNum = i := by
  intro i v h
  rcases i with _ | _ | _ | _ | _ | _ | i
  · simp only [attemptAt, Option.map_eq_some'] at h
    obtain ⟨b, hb, rfl⟩ := h
    rfl
  · simp only [attemptAt, Option.map_eq_some'] at h
    obtain ⟨b, hb, rfl⟩ := h
    rfl
  · simp only [attemptAt, Option.map_eq_some'] at h
    obtain ⟨b, hb, rfl⟩ := h
    rfl
  · simp only [attemptAt, Option.map_eq_some'] at h
    obtain ⟨b, hb, rfl⟩ := h
    rfl
  · simp only [attemptAt] at h
    injection h with h
    subst h
    rfl
  · simp only [attemptAt] at h
    injection h with h
    subst h
    rfl
  · simp only [attemptAt] at h
    exact Option.noConfusion h

theorem findSome?_cons_elim {f : Nat → Option Variant} {x : Nat} {l : List Nat} {v : Variant}
    (h : (x :: l).findSome? f = some v) :
    f x = some v ∨ (f x = none ∧ l.findSome? f = some v) := by
  rw [List.findSome?_cons] at h
  revert h
  cases h0 : f x with
  | none =>
    intro h
    exact Or.inr ⟨rfl, h⟩
  | some w =>
    intro h
    have h' : some w = some v := h
    exact Or.inl h'

theorem findSome?_six {f : Nat → Option Variant} {v : Variant}
    (htag : ∀ i w, f i = some w → w.tagNum = i)
    (h : ([0, 1, 2, 3, 4, 5] : List Nat).findSome? f = some v) :
    f v.tagNum = some v ∧ ∀ j, j < v.tagNum → f j = none := by
  rcases findSome?_cons_elim h with h0 | ⟨h0, h⟩
  · rw [htag 0 v h0]
    exact ⟨h0, fun j hj => absurd hj (Nat.not_lt_zero j)⟩
  rcases findSome?_cons_elim h with h1 | ⟨h1, h⟩
  · rw [htag 1 v h1]
    refine ⟨h1, ?_⟩
    intro j hj
    interval_cases j
    exact h0
  rcases findSome?_cons_elim h with h2 | ⟨h2, h⟩
  · rw [htag 2 v h2]
    refine ⟨h2, ?_⟩
    intro j hj
    interval_cases j
    · exact h0
    · exact h1
  rcases findSome?_cons_elim h with h3 | ⟨h3, h⟩
  · rw [htag 3 v h3]
    refine ⟨h3, ?_⟩
    intro j hj
    interval_cases j
    · exact h0
    · exact h1
    · exact h2
  rcases findSome?_cons_elim h with h4 | ⟨h4, h⟩
  · rw [htag 4 v h4]
    refine ⟨h4, ?_⟩
    intro j hj
    interval_cases j
    · exact h0
    · exact h1
    · exact h2
    · exact h3
  rcases findSome?_cons_elim h with h5 | ⟨h5, h⟩
  · rw [htag 5 v h5]
    refine ⟨h5, ?_⟩
    intro j hj
    interval_cases j
    · exact h0
    · exact h1
    · exact h2
    · exact h3
    · exact h4
  rw [List.findSome?_nil] at h
  exact Option.noConfusion h

/-- C1: for every constraint and input string, `VariantFlag::parse` attempts
the representations in the fixed order Bool, Int, Float, Socket, Path,
String, skipping representations not in the allowed set, and returns the
first representation that is both allowed and parses; consequently a
returned value's tag is the earliest allowed-and-successful one, so any
allowed representation earlier in the order must have failed to parse. -/
theorem c1_parse_precedence :
    ∀ (pf : String → Option Int) (ps : String → Option SocketAddr)
      (self : VariantFlag) (raw : String),
      self.parse pf ps raw = firstAllowedSuccess pf ps self raw ∧
      ∀ v, self.parse pf ps raw = some v →
        allowedAt self v.tagNum = true ∧ attemptAt pf ps raw v.tagNum = some v ∧
        ∀ j, j < v.tagNum → allowedAt self j = true → attemptAt pf ps raw j = none := by
  intro pf ps self raw
  refine ⟨parse_eq_firstAllowedSuccess pf ps self raw, ?_⟩
  intro v hv
  rw [parse_eq_firstAllowedSuccess, firstAllowedSuccess,
    show List.range 6 = [0, 1, 2, 3, 4, 5] from rfl] at hv
  have htag : ∀ i w,
      (if allowedAt self i then attemptAt pf ps raw i else none) = some w → w.tagNum = i := by
    intro i w hw
    by_cases ha : allowedAt self i = true
    · exact attemptAt_tagNum pf ps raw i w (by simpa [ha] using hw)
    · simp [ha] at hw
  obtain ⟨hmain, hprev⟩ := findSome?_six htag hv
  by_cases ha : allowedAt self v.tagNum = true
  · refine ⟨ha, by simpa [ha] using hmain, ?_⟩
    intro j hj haj
    have hz := hprev j hj
    simpa [haj] using hz
  · simp [ha] at hmain

/-- Witness for C1 at concrete inputs: a constraint allowing bool, int and
string resolves the text `true` as a Bool, and `7` as an Int, both with all
earlier allowed attempts accounted for. -/
theorem c1_parse_precedence_witness :
    VariantFlag.bool.or_int.or_string.parse (fun _ => none) (fun _ => none) "true" =
      some (Variant.bool true) ∧
    allowedAt VariantFlag.bool.or_int.or_string (Variant.bool true).tagNum = true := by
  have h := c1_parse_precedence (fun _ => none) (fun _ => none)
    VariantFlag.bool.or_int.or_string "true"
  have hp : VariantFlag.bool.or_int.or_string.parse (fun _ => none) (fun _ => none) "true" =
      some (Variant.bool true) := by
    rw [h.1]
    rfl
  exact ⟨hp, (h.2 (Variant.bool true) hp).1⟩

/-! ### The argument parser (`src/args.rs` and `src/lib.rs`) -/

/-- Model of `FlagDefinition` from `src/lib.rs`. -/
structure FlagDefinition where
  name : String
  abbreviation : Option Char
  allowed_type : VariantFlag
deriving DecidableEq

/-- Model of `ArgumentError` from `src/lib.rs`.  The source wraps a message
string; each constructor here stands for one distinct `ArgumentError::new`
site, carrying the data interpolated into that message. -/
inductive ArgumentError where
  | emptyArgs
  | unknownFlag (name : String)
  | infallible
  | unknownAbbreviation (c : Char)
  | missingFlagValue (name : String)
  | invalidFlagValue (value : String) (index : Nat) (name : String)
  | tooManyPositionals
  | invalidPositionalValue (posIndex : Nat) (index : Nat)
  | tooFewPositionals
deriving DecidableEq

/-- Model of `struct Args` from `src/args.rs`.  The `HashMap` is an
association list; see `insertNamed`/`getNamed`. -/
structure Args where
  binary : String
  positional : List Variant
  named : List (String × Variant)
deriving DecidableEq

/-- Embeds `str::starts_with("--")` on the token's character sequence. -/
def startsWithDashDash (arg : String) : Bool :=
  match arg.toList with
  | '-' :: '-' :: _ => true
  | _ => false

/-- Embeds `str::starts_with('-')` on the token's character sequence. -/
def startsWithDash (arg : String) : Bool :=
  match arg.toList with
  | '-' :: _ => true
  | _ => false

/-- The remainder of a long-flag token: `arg.chars().skip(2).collect()`. -/
def longFlagName (arg : String) : String :=
  String.mk (arg.toList.drop 2)

/-- Embeds `match_flag_definition` from `src/args.rs` lines 118-149. -/
def match_flag_definition (flag_definitions : List FlagDefinition) (arg : String) :
    Except ArgumentError (Option FlagDefinition) :=
  if startsWithDashDash arg then
    match flag_definitions.find? (fun d => d.name == longFlagName arg) with
    | some d => Except.ok (some d)
    | none => Except.error (ArgumentError.unknownFlag (longFlagName arg))
  else if startsWithDash arg && arg.toList.length == 2 then
    match arg.toList.getLast? with
    | none => Except.error ArgumentError.infallible
    | some input_char =>
      match flag_definitions.find? (fun d => d.abbreviation.any (fun a => input_char == a)) with
      | some d => Except.ok (some d)
      | none => Except.error (ArgumentError.unknownAbbreviation input_char)
  else
    Except.ok none

/-- Models `HashMap::insert`: replace any existing binding for the key. -/
def insertNamed (named : List (String × Variant)) (key : String) (v : Variant) :
    List (String × Variant) :=
  (key, v) :: named.filter (fun p => p.fst != key)

/-- Models `HashMap::get`. -/
def getNamed (named : List (String × Variant)) (key : String) : Option Variant :=
  (named.find? (fun p => p.fst == key)).map (fun p => p.snd)

/-- The `while let` loop of `Args::from_iter` (`src/args.rs` lines 49-83),
with the enumerate index, the named map and the positional vector passed as
explicit state.  `index` is the enumerate index of the current token. -/
def fromIterLoop (pf : String → Option Int) (ps : String → Option SocketAddr)
    (positional_types : List VariantFlag) (flag_definitions : List FlagDefinition) :
    List String → Nat → List (String × Variant) → List Variant →
    Except ArgumentError (List (String × Variant) × List Variant)
  | [], _, named, positional => Except.ok (named, positional)
  | arg :: rest, index, named, positional =>
    match match_flag_definition flag_definitions arg with
    | Except.error e => Except.error e
    | Except.ok (some matched_definition) =>
      if matched_definition.allowed_type.is_unit then
        fromIterLoop pf ps positional_types flag_definitions rest (index + 1)
          (insertNamed named matched_definition.name (Variant.bool true)) positional
      else
        match rest with
        | [] => Except.error (ArgumentError.missingFlagValue matched_definition.name)
        | value :: rest2 =>
          match matched_definition.allowed_type.parse pf ps value with
          | none => Except.error
              (ArgumentError.invalidFlagValue value (index + 1) matched_definition.name)
          | some v =>
            fromIterLoop pf ps positional_types flag_definitions rest2 (index + 2)
              (insertNamed named matched_definition.name v) positional
    | Except.ok none =>
      match positional_types.get? positional.length with
      | none => Except.error ArgumentError.tooManyPositionals
      | some allowed_types =>
        match allowed_types.parse pf ps arg with
        | none => Except.error
            (ArgumentError.invalidPositionalValue positional.length index)
        | some v =>
          fromIterLoop pf ps positional_types flag_definitions rest (index + 1) named
            (positional ++ [v])

/-- Embeds `Args::from_iter` from `src/args.rs` lines 38-96: take the
program name, run the classification loop, then enforce the positional
arity check. -/
def fromIter (pf : String → Option Int) (ps : String → Option SocketAddr)
    (positional_types : List VariantFlag) (flag_definitions : List FlagDefinition)
    (args : List String) : Except ArgumentError Args :=
  match args with
  | [] => Except.error ArgumentError.emptyArgs
  | binary :: rest =>
    match fromIterLoop pf ps positional_types flag_definitions rest 1 [] [] with
    | Except.error e => Except.error e
    | Except.ok (named, positional) =>
      if positional.length != positional_types.length then
        Except.error ArgumentError.tooFewPositionals
      else
        Except.ok ⟨binary, positional, named⟩

/-- Embeds `Args::get_positional`. -/
def Args.get_positional (self : Args) (index : Nat) : Option Variant :=
  self.positional.get? index

/-- Embeds `Args::get_named`. -/
def Args.get_named (self : Args) (name : String) : Option Variant :=
  getNamed self.named name

/-! ### Map lemmas for the association-list model of the HashMap -/

theorem getNamed_insert_self (named : List (String × Variant)) (k : String) (v : Variant) :
    getNamed (insertNamed named k v) k = some v := by
  unfold getNamed insertNamed
  rw [List.find?_cons_of_pos _ (by simp)]
  rfl

theorem find?_filter_ne (named : List (String × Variant)) (k n : String) (h : k ≠ n) :
    ((named.filter fun p => p.fst != k).find? fun p => p.fst == n) =
      named.find? (fun p => p.fst == n) := by
  induction named with
  | nil => rfl
  | cons q qs ih =>
    by_cases hq : q.fst = k
    · rw [List.filter_cons_of_neg (by simp [hq]), ih,
        List.find?_cons_of_neg _ (by simp [hq]; exact h)]
    · rw [List.filter_cons_of_pos (by simp [hq])]
      by_cases hn : q.fst = n
      · rw [List.find?_cons_of_pos _ (by simp [hn]), List.find?_cons_of_pos _ (by simp [hn])]
      · rw [List.find?_cons_of_neg _ (by simp [hn]), List.find?_cons_of_neg _ (by simp [hn]), ih]

theorem getNamed_insert (named : List (String × Variant)) (k : String) (v : Variant)
    (n : String) :
    getNamed (insertNamed named k v) n = if k = n then some v else getNamed named n := by
  by_cases h : k = n
  · subst h
    rw [if_pos rfl]
    exact getNamed_insert_self named k v
  · rw [if_neg h]
    unfold getNamed insertNamed
    rw [List.find?_cons_of_neg _ (by simp [h]), find?_filter_ne named k n h]

/-- C5: a matched flag with the unit (empty) constraint records
`named[name] = Bool(true)` and consumes no further token: the loop
continues at the very next token with only the map updated. -/
theorem c5_unit_flag_step :
    ∀ (pf : String → Option Int) (ps : String → Option SocketAddr)
      (pt : List VariantFlag) (fd : List FlagDefinition) (arg : String)
      (rest : List String) (index : Nat) (named : List (String × Variant))
      (positional : List Variant) (matched : FlagDefinition),
      match_flag_definition fd arg = Except.ok (some matched) →
      matched.allowed_type.is_unit = true →
      fromIterLoop pf ps pt fd (arg :: rest) index named positional =
        fromIterLoop pf ps pt fd rest (index + 1)
          (insertNamed named matched.name (Variant.bool true)) positional ∧
      getNamed (insertNamed named matched.name (Variant.bool true)) matched.name =
        some (Variant.bool true) := by
  intro pf ps pt fd arg rest index named positional matched h1 h2
  refine ⟨?_, getNamed_insert_self named matched.name (Variant.bool true)⟩
  rw [fromIterLoop, h1]
  simp [h2]

/-- Witness for C5: the short unit flag `-v` records `verbose = Bool(true)`
and leaves the following tokens untouched. -/
theorem c5_unit_flag_step_witness :
    fromIterLoop (fun _ => none) (fun _ => none) []
      [⟨"verbose", some 'v', VariantFlag.new_unit⟩] ["-v"] 1 [] [] =
      Except.ok ([("verbose", Variant.bool true)], []) := by
  have h := c5_unit_flag_step (fun _ => none) (fun _ => none) []
    [⟨"verbose", some 'v', VariantFlag.new_unit⟩] "-v" [] 1 [] []
    ⟨"verbose", some 'v', VariantFlag.new_unit⟩ rfl rfl
  rw [h.1]
  rfl

/-- C6: a matched flag with a non-unit constraint consumes the next token
as its value: an exhausted stream fails with the missing-value error, an
unresolvable value token fails with the invalid-value error, and otherwise
the loop continues after the value token with `named[name]` set to the
resolved value. -/
theorem c6_nonunit_flag_value :
    ∀ (pf : String → Option Int) (ps : String → Option SocketAddr)
      (pt : List VariantFlag) (fd : List FlagDefinition) (arg : String)
      (index : Nat) (named : List (String × Variant)) (positional : List Variant)
      (matched : FlagDefinition),
      match_flag_definition fd arg = Except.ok (some matched) →
      matched.allowed_type.is_unit = false →
      (fromIterLoop pf ps pt fd [arg] index named positional =
          Except.error (ArgumentError.missingFlagValue matched.name)) ∧
      (∀ value rest2, matched.allowed_type.parse pf ps value = none →
          fromIterLoop pf ps pt fd (arg :: value :: rest2) index named positional =
            Except.error (ArgumentError.invalidFlagValue value (index + 1) matched.name)) ∧
      (∀ value rest2 v, matched.allowed_type.parse pf ps value = some v →
          fromIterLoop pf ps pt fd (arg :: value :: rest2) index named positional =
            fromIterLoop pf ps pt fd rest2 (index + 2)
              (insertNamed named matched.name v) positional ∧
          getNamed (insertNamed named matched.name v) matched.name = some v) := by
  intro pf ps pt fd arg index named positional matched h1 h2
  refine ⟨?_, ?_, ?_⟩
  · rw [fromIterLoop, h1]
    simp [h2]
  · intro value rest2 hv
    rw [fromIterLoop, h1]
    simp [h2, hv]
  · intro value rest2 v hv
    refine ⟨?_, getNamed_insert_self named matched.name v⟩
    rw [fromIterLoop, h1]
    simp [h2, hv]

/-- Witness for C6 on the int-constrained flag `--num`: missing value,
unparsable value, and successful value consumption. -/
theorem c6_nonunit_flag_value_witness :
    fromIterLoop (fun _ => none) (fun _ => none) [] [⟨"num", none, VariantFlag.int⟩]
      ["--num"] 1 [] [] = Except.error (ArgumentError.missingFlagValue "num") ∧
    fromIterLoop (fun _ => none) (fun _ => none) [] [⟨"num", none, VariantFlag.int⟩]
      ["--num", "xy"] 1 [] [] =
      Except.error (ArgumentError.invalidFlagValue "xy" 2 "num") ∧
    fromIterLoop (fun _ => none) (fun _ => none) [] [⟨"num", none, VariantFlag.int⟩]
      ["--num", "7"] 1 [] [] = Except.ok ([("num", Variant.int 7)], []) := by
  have h := c6_nonunit_flag_value (fun _ => none) (fun _ => none) []
    [⟨"num", none, VariantFlag.int⟩] "--num" 1 [] [] ⟨"num", none, VariantFlag.int⟩ rfl rfl
  refine ⟨h.1, h.2.1 "xy" [] rfl, ?_⟩
  rw [(h.2.2 "7" [] (Variant.int 7) rfl).1]
  rfl

theorem string_only_parse (pf : String → Option Int) (ps : String → Option SocketAddr)
    (raw : String) : VariantFlag.string.parse pf ps raw = some (Variant.str raw) := rfl

theorem string_only_not_unit : VariantFlag.string.is_unit = false := rfl

/-- C9: the token consumed as a non-unit flag's value is never classified:
whatever its shape (even `--verbose`), with a String-constrained flag it is
wrapped verbatim and the loop continues after it. -/
theorem c9_value_token_not_classified :
    ∀ (pf : String → Option Int) (ps : String → Option SocketAddr)
      (pt : List VariantFlag) (fd : List FlagDefinition) (arg value : String)
      (rest : List String) (index : Nat) (named : List (String × Variant))
      (positional : List Variant) (matched : FlagDefinition),
      match_flag_definition fd arg = Except.ok (some matched) →
      matched.allowed_type = VariantFlag.string →
      fromIterLoop pf ps pt fd (arg :: value :: rest) index named positional =
        fromIterLoop pf ps pt fd rest (index + 2)
          (insertNamed named matched.name (Variant.str value)) positional := by
  intro pf ps pt fd arg value rest index named positional matched h1 h2
  rw [fromIterLoop, h1]
  simp [h2, string_only_parse, string_only_not_unit]

/-- Witness for C9: with a String-constrained flag `--out`, the stream
`--out --verbose` stores the literal text `--verbose` as the flag's value
instead of classifying it. -/
theorem c9_value_token_not_classified_witness :
    fromIter (fun _ => none) (fun _ => none) [] [⟨"out", none, VariantFlag.string⟩]
      ["prog", "--out", "--verbose"] =
      Except.ok ⟨"prog", [], [("out", Variant.str "--verbose")]⟩ := by
  have h := c9_value_token_not_classified (fun _ => none) (fun _ => none) []
    [⟨"out", none, VariantFlag.string⟩] "--out" "--verbose" [] 1 [] []
    ⟨"out", none, VariantFlag.string⟩ rfl rfl
  rw [fromIter, h]
  rfl

/-- C2: `Variant::total_cmp` coincides with the reference comparison that
ranks by tag in the order Bool < Int < Float < Socket < Path < String and
compares payloads by their natural order within equal tags; in particular
the source's reuse of `self` in the right-hand tuple's second slot is inert,
and `total_cmp` is a total order (equality, antisymmetry under swap, and
transitivity of strict comparison). -/
theorem c2_total_cmp_total_order :
    (∀ a b : Variant, a.total_cmp b = specTotalCmp a b) ∧
    (∀ a b : Variant, a.total_cmp b = Ordering.eq ↔ a = b) ∧
    (∀ a b : Variant, (a.total_cmp b).swap = b.total_cmp a) ∧
    (∀ a b c : Variant, a.total_cmp b = Ordering.lt → b.total_cmp c = Ordering.lt →
      a.total_cmp c = Ordering.lt) := by
  refine ⟨total_cmp_eq_spec, ?_, ?_, ?_⟩
  · intro a b
    rw [total_cmp_eq_spec]
    exact specTotalCmp_eq_eq a b
  · intro a b
    rw [total_cmp_eq_spec, total_cmp_eq_spec]
    exact specTotalCmp_swap a b
  · intro a b c h1 h2
    rw [total_cmp_eq_spec] at h1 h2 ⊢
    exact specTotalCmp_lt_trans h1 h2

/-- Witness for C2: transitivity applied across the Bool and Int tags on
concrete values, matching the spec's ordering scenario. -/
theorem c2_total_cmp_total_order_witness :
    Variant.total_cmp (Variant.bool false) (Variant.int 5) = Ordering.lt :=
  c2_total_cmp_total_order.2.2.2 (Variant.bool false) (Variant.bool true) (Variant.int 5)
    (by decide) (by decide)

/-- C3: a successfully constructed result has exactly as many positional
values as declared positional constraints; a positional candidate arriving
when all constraint slots are already filled fails with the
too-many-positionals error; and a stream that ends with fewer positional
values than constraints fails with the too-few-positionals error. -/
theorem c3_positional_arity :
    ∀ (pf : String → Option Int) (ps : String → Option SocketAddr)
      (pt : List VariantFlag) (fd : List FlagDefinition) (binary : String)
      (rest : List String),
      (∀ a, fromIter pf ps pt fd (binary :: rest) = Except.ok a →
        a.positional.length = pt.length) ∧
      (∀ arg more index named positional, positional.length = pt.length →
        match_flag_definition fd arg = Except.ok none →
        fromIterLoop pf ps pt fd (arg :: more) index named positional =
          Except.error ArgumentError.tooManyPositionals) ∧
      (∀ named positional,
        fromIterLoop pf ps pt fd rest 1 [] [] = Except.ok (named, positional) →
        positional.length < pt.length →
        fromIter pf ps pt fd (binary :: rest) = Except.error ArgumentError.tooFewPositionals) := by
  intro pf ps pt fd binary rest
  refine ⟨?_, ?_, ?_⟩
  · intro a h
    rw [fromIter] at h
    revert h
    cases hl : fromIterLoop pf ps pt fd rest 1 [] [] with
    | error e =>
      intro h
      exact Except.noConfusion h
    | ok p =>
      obtain ⟨nm, pos⟩ := p
      intro h
      have h' : (if (pos.length != pt.length) = true then
          (Except.error ArgumentError.tooFewPositionals : Except ArgumentError Args)
          else Except.ok ⟨binary, pos, nm⟩) = Except.ok a := h
      by_cases hb : (pos.length != pt.length) = true
      · rw [if_pos hb] at h'
        exact Except.noConfusion h'
      · rw [if_neg hb] at h'
        injection h' with h'
        rw [← h']
        simpa [bne_iff_ne] using hb
  · intro arg more index named positional hlen hmfd
    have hget : pt.get? positional.length = none := by
      rw [hlen]
      exact List.get?_eq_none.mpr (le_refl pt.length)
    rw [fromIterLoop, hmfd, hget]
  · intro named positional hl hlt
    rw [fromIter, hl]
    have hne : (positional.length != pt.length) = true := bne_iff_ne.mpr (Nat.ne_of_lt hlt)
    simp [hne]

/-- Witness for C3 with one declared String positional: a single positional
token succeeds with exactly one value, a second positional token fails with
too-many-positionals, and an empty remainder fails with
too-few-positionals. -/
theorem c3_positional_arity_witness :
    (Args.mk "prog" [Variant.str "x"] []).positional.length = 1 ∧
    fromIterLoop (fun _ => none) (fun _ => none) [VariantFlag.string] [] ["y"] 2 []
      [Variant.str "x"] = Except.error ArgumentError.tooManyPositionals ∧
    fromIter (fun _ => none) (fun _ => none) [VariantFlag.string] [] ["prog"] =
      Except.error ArgumentError.tooFewPositionals := by
  refine ⟨?_, ?_, ?_⟩
  · exact (c3_positional_arity (fun _ => none) (fun _ => none) [VariantFlag.string] []
      "prog" ["x"]).1 ⟨"prog", [Variant.str "x"], []⟩ rfl
  · exact (c3_positional_arity (fun _ => none) (fun _ => none) [VariantFlag.string] []
      "prog" ["x"]).2.1 "y" [] 2 [] [Variant.str "x"] rfl rfl
  · exact (c3_positional_arity (fun _ => none) (fun _ => none) [VariantFlag.string] []
      "prog" []).2.2 [] [] rfl (by decide)

/-! ### Token classification (C4, C10) -/

theorem abbrev_pred_iff (d : FlagDefinition) (c : Char) :
    (d.abbreviation.any (fun a => c == a)) = true ↔ d.abbreviation = some c := by
  cases habb : d.abbreviation with
  | none => simp [Option.any]
  | some a =>
    simp only [Option.any, beq_iff_eq, Option.some.injEq]
    exact ⟨fun h => h.symm, fun h => h.symm⟩

/-- C4: token classification.  A token starting with `--` is matched as a
long flag against the declared names, failing with the unknown-flag error
when no name matches; a two-character token starting with `-` (and not with
`--`) is matched as a short flag against the declared abbreviations, failing
with the unknown-abbreviation error when none matches; every other token is
classified as a positional candidate. -/
theorem c4_token_classification :
    ∀ (fd : List FlagDefinition) (arg : String),
      (startsWithDashDash arg = true →
        (∃ d, match_flag_definition fd arg = Except.ok (some d) ∧ d ∈ fd ∧
            d.name = longFlagName arg) ∨
        (match_flag_definition fd arg =
            Except.error (ArgumentError.unknownFlag (longFlagName arg)) ∧
          ∀ d ∈ fd, d.name ≠ longFlagName arg)) ∧
      (startsWithDashDash arg = false → startsWithDash arg = true →
          arg.toList.length = 2 →
        ∃ c, arg.toList.getLast? = some c ∧
          ((∃ d, match_flag_definition fd arg = Except.ok (some d) ∧ d ∈ fd ∧
              d.abbreviation = some c) ∨
           (match_flag_definition fd arg =
               Except.error (ArgumentError.unknownAbbreviation c) ∧
             ∀ d ∈ fd, d.abbreviation ≠ some c))) ∧
      (startsWithDashDash arg = false →
          (startsWithDash arg = false ∨ arg.toList.length ≠ 2) →
        match_flag_definition fd arg = Except.ok none) := by
  intro fd arg
  refine ⟨?_, ?_, ?_⟩
  · intro h2
    rw [match_flag_definition, if_pos h2]
    cases hf : fd.find? (fun d => d.name == longFlagName arg) with
    | some d =>
      refine Or.inl ⟨d, rfl, List.mem_of_find?_eq_some hf, ?_⟩
      simpa using List.find?_some hf
    | none =>
      refine Or.inr ⟨rfl, ?_⟩
      intro d hd
      simpa using List.find?_eq_none.mp hf d hd
  · intro h2 h1 hlen
    have hne : arg.toList ≠ [] := by
      intro hnil
      rw [hnil] at hlen
      exact absurd hlen (by decide)
    obtain ⟨c, hc⟩ : ∃ c, arg.toList.getLast? = some c := by
      cases hg : arg.toList.getLast? with
      | none => exact absurd (List.getLast?_eq_none_iff.mp hg) hne
      | some c => exact ⟨c, rfl⟩
    have hmfd : match_flag_definition fd arg =
        match fd.find? (fun d => d.abbreviation.any (fun a => c == a)) with
        | some d => Except.ok (some d)
        | none => Except.error (ArgumentError.unknownAbbreviation c) := by
      rw [match_flag_definition, if_neg (by simp [h2]), if_pos (by rw [h1, hlen]; rfl), hc]
    refine ⟨c, hc, ?_⟩
    cases hf : fd.find? (fun d => d.abbreviation.any (fun a => c == a)) with
    | some d =>
      rw [hf] at hmfd
      refine Or.inl ⟨d, hmfd.trans rfl, List.mem_of_find?_eq_some hf, ?_⟩
      have hp := List.find?_some hf
      exact (abbrev_pred_iff d c).mp hp
    | none =>
      rw [hf] at hmfd
      refine Or.inr ⟨hmfd.trans rfl, ?_⟩
      intro d hd heq
      exact (List.find?_eq_none.mp hf d hd) ((abbrev_pred_iff d c).mpr heq)
  · intro h2 hcase
    have hcond : ¬((startsWithDash arg && (arg.toList.length == 2)) = true) := by
      intro hcontra
      rw [Bool.and_eq_true] at hcontra
      rcases hcase with h | h
      · rw [h] at hcontra
        simp at hcontra
      · exact h (beq_iff_eq.mp hcontra.2)
    rw [match_flag_definition, if_neg (by simp [h2]), if_neg hcond]

/-- Witness for C4: against a schema declaring only `verbose`/`v`, the token
`--verbose` classifies as a known long flag (first disjunct of the theorem),
and `positional` classifies as a positional candidate. -/
theorem c4_token_classification_witness :
    ((∃ d, match_flag_definition [⟨"verbose", some 'v', VariantFlag.new_unit⟩] "--verbose" =
        Except.ok (some d) ∧ d ∈ [⟨"verbose", some 'v', VariantFlag.new_unit⟩] ∧
        d.name = longFlagName "--verbose") ∨
     (match_flag_definition [⟨"verbose", some 'v', VariantFlag.new_unit⟩] "--verbose" =
        Except.error (ArgumentError.unknownFlag (longFlagName "--verbose")) ∧
      ∀ d ∈ [(⟨"verbose", some 'v', VariantFlag.new_unit⟩ : FlagDefinition)],
        d.name ≠ longFlagName "--verbose")) ∧
    match_flag_definition [⟨"verbose", some 'v', VariantFlag.new_unit⟩] "positional" =
      Except.ok none :=
  ⟨(c4_token_classification [⟨"verbose", some 'v', VariantFlag.new_unit⟩] "--verbose").1 rfl,
   (c4_token_classification [⟨"verbose", some 'v', VariantFlag.new_unit⟩] "positional").2.2
     rfl (Or.inl rfl)⟩

theorem find?_append_of_none {α : Type} {p : α → Bool} {l1 : List α}
    (h : ∀ x ∈ l1, ¬p x = true) (l2 : List α) : (l1 ++ l2).find? p = l2.find? p := by
  induction l1 with
  | nil => rfl
  | cons x xs ih =>
    rw [List.cons_append, List.find?_cons_of_neg _ (h x (List.mem_cons_self x xs))]
    exact ih (fun y hy => h y (List.mem_cons_of_mem x hy))

/-- C10: when the declared list contains duplicate names or abbreviations,
a flag token is matched to the first declaration-order entry whose name
(resp. abbreviation) fits, regardless of what follows that entry. -/
theorem c10_first_declaration_wins :
    ∀ (ds1 : List FlagDefinition) (d : FlagDefinition) (ds2 : List FlagDefinition)
      (arg : String),
      (startsWithDashDash arg = true → d.name = longFlagName arg →
        (∀ e ∈ ds1, e.name ≠ longFlagName arg) →
        match_flag_definition (ds1 ++ d :: ds2) arg = Except.ok (some d)) ∧
      (startsWithDashDash arg = false → startsWithDash arg = true →
          arg.toList.length = 2 →
        ∀ c, arg.toList.getLast? = some c → d.abbreviation = some c →
        (∀ e ∈ ds1, e.abbreviation ≠ some c) →
        match_flag_definition (ds1 ++ d :: ds2) arg = Except.ok (some d)) := by
  intro ds1 d ds2 arg
  constructor
  · intro h2 hname hfirst
    have hfind : ((ds1 ++ d :: ds2).find? fun e => e.name == longFlagName arg) = some d := by
      rw [find?_append_of_none (fun x hx => by simpa using hfirst x hx),
        List.find?_cons_of_pos _ (by simp [hname])]
    rw [match_flag_definition, if_pos h2, hfind]
  · intro h2 h1 hlen c hc habb hfirst
    have hfind : ((ds1 ++ d :: ds2).find? fun e => e.abbreviation.any (fun a => c == a)) =
        some d := by
      rw [find?_append_of_none
          (fun x hx hpx => (hfirst x hx) ((abbrev_pred_iff x c).mp hpx)),
        List.find?_cons_of_pos _ (by exact (abbrev_pred_iff d c).mpr habb)]
    have hmfd : match_flag_definition (ds1 ++ d :: ds2) arg =
        match (ds1 ++ d :: ds2).find? (fun e => e.abbreviation.any (fun a => c == a)) with
        | some e => Except.ok (some e)
        | none => Except.error (ArgumentError.unknownAbbreviation c) := by
      rw [match_flag_definition, if_neg (by simp [h2]), if_pos (by rw [h1, hlen]; rfl), hc]
    rw [hmfd, hfind]

/-- Witness for C10: with two declarations both named `dup` (and both
abbreviated `d`), long and short tokens match the first entry, whose
constraint is the unit one, not the later String-typed duplicate. -/
theorem c10_first_declaration_wins_witness :
    match_flag_definition
      [⟨"dup", some 'd', VariantFlag.new_unit⟩, ⟨"dup", some 'd', VariantFlag.string⟩]
      "--dup" = Except.ok (some ⟨"dup", some 'd', VariantFlag.new_unit⟩) ∧
    match_flag_definition
      [⟨"dup", some 'd', VariantFlag.new_unit⟩, ⟨"dup", some 'd', VariantFlag.string⟩]
      "-d" = Except.ok (some ⟨"dup", some 'd', VariantFlag.new_unit⟩) :=
  ⟨(c10_first_declaration_wins [] ⟨"dup", some 'd', VariantFlag.new_unit⟩
      [⟨"dup", some 'd', VariantFlag.string⟩] "--dup").1 rfl rfl
      (fun e he => absurd he (List.not_mem_nil e)),
   (c10_first_declaration_wins [] ⟨"dup", some 'd', VariantFlag.new_unit⟩
      [⟨"dup", some 'd', VariantFlag.string⟩] "-d").2 rfl rfl rfl 'd' rfl rfl
      (fun e he => absurd he (List.not_mem_nil e))⟩

/-! ### Last-write-wins (C7) and positional binding (C8) -/

/-- The sequence of (name, value) insertions into the named map that the
loop performs on a token stream, in order.  Mirrors the token consumption of
`fromIterLoop`; on error paths the remainder is irrelevant and empty. -/
def namedWrites (pf : String → Option Int) (ps : String → Option SocketAddr)
    (fd : List FlagDefinition) : List String → List (String × Variant)
  | [] => []
  | arg :: rest =>
    match match_flag_definition fd arg with
    | Except.error _ => []
    | Except.ok (some matched) =>
      if matched.allowed_type.is_unit then
        (matched.name, Variant.bool true) :: namedWrites pf ps fd rest
      else
        match rest with
        | [] => []
        | value :: rest2 =>
          match matched.allowed_type.parse pf ps value with
          | none => []
          | some v => (matched.name, v) :: namedWrites pf ps fd rest2
    | Except.ok none => namedWrites pf ps fd rest

/-- Fold the write sequence over a starting binding: the result is the value
of the last write to `n`, or the starting binding when `n` is never
written. -/
def lastWriteFrom (base : Option Variant) (n : String) (ws : List (String × Variant)) :
    Option Variant :=
  ws.foldl (fun acc w => if w.fst = n then some w.snd else acc) base

/-- The subsequence of tokens the loop classifies as positional candidates.
Mirrors the token consumption of `fromIterLoop`. -/
def posToks (fd : List FlagDefinition) : List String → List String
  | [] => []
  | arg :: rest =>
    match match_flag_definition fd arg with
    | Except.error _ => []
    | Except.ok (some matched) =>
      posToks fd (if matched.allowed_type.is_unit then rest else rest.tail)
    | Except.ok none => arg :: posToks fd rest
termination_by tokens => tokens.length
decreasing_by
  all_goals simp
  all_goals split
  all_goals simp [List.length_tail]
  all_goals omega

/-- Modelled from the spec (section 4.3 step 4): resolve the i-th positional
token against the i-th remaining declared constraint, in lockstep. -/
def seqParse (pf : String → Option Int) (ps : String → Option SocketAddr) :
    List VariantFlag → List String → Option (List Variant)
  | _, [] => some []
  | [], _ :: _ => none
  | c :: cs, t :: ts =>
    match c.parse pf ps t with
    | none => none
    | some v => (seqParse pf ps cs ts).map (fun tail => v :: tail)

theorem fromIter_ok_elim (pf : String → Option Int) (ps : String → Option SocketAddr)
    (pt : List VariantFlag) (fd : List FlagDefinition) {binary : String}
    {rest : List String} {a : Args}
    (h : fromIter pf ps pt fd (binary :: rest) = Except.ok a) :
    ∃ nm pos, fromIterLoop pf ps pt fd rest 1 [] [] = Except.ok (nm, pos) ∧
      a = ⟨binary, pos, nm⟩ ∧ pos.length = pt.length := by
  rw [fromIter] at h
  revert h
  cases hl : fromIterLoop pf ps pt fd rest 1 [] [] with
  | error e =>
    intro h
    exact Except.noConfusion h
  | ok p =>
    obtain ⟨nm, pos⟩ := p
    intro h
    have h' : (if (pos.length != pt.length) = true then
        (Except.error ArgumentError.tooFewPositionals : Except ArgumentError Args)
        else Except.ok ⟨binary, pos, nm⟩) = Except.ok a := h
    by_cases hb : (pos.length != pt.length) = true
    · rw [if_pos hb] at h'
      exact Except.noConfusion h'
    · rw [if_neg hb] at h'
      injection h' with h'
      exact ⟨nm, pos, rfl, h'.symm, by simpa [bne_iff_ne] using hb⟩

theorem loop_getNamed (pf : String → Option Int) (ps : String → Option SocketAddr)
    (pt : List VariantFlag) (fd : List FlagDefinition) :
    ∀ tokens idx named positional nm pos,
      fromIterLoop pf ps pt fd tokens idx named positional = Except.ok (nm, pos) →
      ∀ n, getNamed nm n = lastWriteFrom (getNamed named n) n (namedWrites pf ps fd tokens) := by
  intro tokens idx named positional
  induction tokens, idx, named, positional using fromIterLoop.induct pf ps pt fd with
  | case1 x named positional =>
    intro nm pos h n
    simp only [fromIterLoop] at h
    injection h with h
    injection h with h1 h2
    subst h1
    rfl
  | case2 arg rest index named positional e hmfd =>
    intro nm pos h n
    simp [fromIterLoop, hmfd] at h
  | case3 arg rest index named positional matched hmfd hunit ih =>
    intro nm pos h n
    simp only [fromIterLoop, hmfd] at h
    rw [if_pos hunit] at h
    rw [ih nm pos h n, getNamed_insert]
    simp only [namedWrites, hmfd]
    rw [if_pos hunit]
    rfl
  | case4 arg index named positional matched hmfd hunit =>
    intro nm pos h n
    simp [fromIterLoop, hmfd, hunit] at h
  | case5 arg index named positional matched hmfd hunit value rest2 hv =>
    intro nm pos h n
    simp [fromIterLoop, hmfd, hunit, hv] at h
  | case6 arg index named positional matched hmfd hunit value rest2 v hv ih =>
    intro nm pos h n
    simp only [fromIterLoop, hmfd] at h
    rw [if_neg hunit] at h
    have h' : fromIterLoop pf ps pt fd rest2 (index + 2)
        (insertNamed named matched.name v) positional = Except.ok (nm, pos) := by
      have hstep : (match matched.allowed_type.parse pf ps value with
          | none => (Except.error
              (ArgumentError.invalidFlagValue value (index + 1) matched.name) :
              Except ArgumentError (List (String × Variant) × List Variant))
          | some v => fromIterLoop pf ps pt fd rest2 (index + 2)
              (insertNamed named matched.name v) positional) = Except.ok (nm, pos) := h
      rw [hv] at hstep
      exact hstep
    rw [ih nm pos h' n, getNamed_insert]
    simp only [namedWrites, hmfd]
    rw [if_neg hunit, hv]
    rfl
  | case7 arg rest index named positional hmfd hget =>
    intro nm pos h n
    rw [List.get?_eq_getElem?] at hget
    simp [fromIterLoop, hmfd, hget] at h
  | case8 arg rest index named positional hmfd allowed hget hv =>
    intro nm pos h n
    rw [List.get?_eq_getElem?] at hget
    simp [fromIterLoop, hmfd, hget, hv] at h
  | case9 arg rest index named positional hmfd allowed hget v hv ih =>
    intro nm pos h n
    simp only [fromIterLoop, hmfd] at h
    rw [hget] at h
    have h' : fromIterLoop pf ps pt fd rest (index + 1) named (positional ++ [v]) =
        Except.ok (nm, pos) := by
      have hstep : (match allowed.parse pf ps arg with
          | none => (Except.error
              (ArgumentError.invalidPositionalValue positional.length index) :
              Except ArgumentError (List (String × Variant) × List Variant))
          | some v => fromIterLoop pf ps pt fd rest (index + 1) named (positional ++ [v])) =
          Except.ok (nm, pos) := h
      rw [hv] at hstep
      exact hstep
    rw [ih nm pos h' n]
    simp only [namedWrites, hmfd]

theorem loop_positional (pf : String → Option Int) (ps : String → Option SocketAddr)
    (pt : List VariantFlag) (fd : List FlagDefinition) :
    ∀ tokens idx named positional nm pos,
      fromIterLoop pf ps pt fd tokens idx named positional = Except.ok (nm, pos) →
      ∃ vs, seqParse pf ps (pt.drop positional.length) (posToks fd tokens) = some vs ∧
        pos = positional ++ vs := by
  intro tokens idx named positional
  induction tokens, idx, named, positional using fromIterLoop.induct pf ps pt fd with
  | case1 x named positional =>
    intro nm pos h
    simp only [fromIterLoop] at h
    injection h with h
    injection h with h1 h2
    subst h2
    exact ⟨[], by simp [posToks, seqParse], by simp⟩
  | case2 arg rest index named positional e hmfd =>
    intro nm pos h
    simp [fromIterLoop, hmfd] at h
  | case3 arg rest index named positional matched hmfd hunit ih =>
    intro nm pos h
    simp only [fromIterLoop, hmfd] at h
    rw [if_pos hunit] at h
    obtain ⟨vs, hs, hp⟩ := ih nm pos h
    refine ⟨vs, ?_, hp⟩
    rw [show posToks fd (arg :: rest) = posToks fd rest from by simp [posToks, hmfd, hunit]]
    exact hs
  | case4 arg index named positional matched hmfd hunit =>
    intro nm pos h
    simp [fromIterLoop, hmfd, hunit] at h
  | case5 arg index named positional matched hmfd hunit value rest2 hv =>
    intro nm pos h
    simp [fromIterLoop, hmfd, hunit, hv] at h
  | case6 arg index named positional matched hmfd hunit value rest2 v hv ih =>
    intro nm pos h
    simp only [fromIterLoop, hmfd] at h
    rw [if_neg hunit] at h
    have h' : fromIterLoop pf ps pt fd rest2 (index + 2)
        (insertNamed named matched.name v) positional = Except.ok (nm, pos) := by
      have hstep : (match matched.allowed_type.parse pf ps value with
          | none => (Except.error
              (ArgumentError.invalidFlagValue value (index + 1) matched.name) :
              Except ArgumentError (List (String × Variant) × List Variant))
          | some v => fromIterLoop pf ps pt fd rest2 (index + 2)
              (insertNamed named matched.name v) positional) = Except.ok (nm, pos) := h
      rw [hv] at hstep
      exact hstep
    obtain ⟨vs, hs, hp⟩ := ih nm pos h'
    refine ⟨vs, ?_, hp⟩
    rw [show posToks fd (arg :: value :: rest2) = posToks fd rest2 from by
      simp [posToks, hmfd, hunit]]
    exact hs
  | case7 arg rest index named positional hmfd hget =>
    intro nm pos h
    rw [List.get?_eq_getElem?] at hget
    simp [fromIterLoop, hmfd, hget] at h
  | case8 arg rest index named positional hmfd allowed hget hv =>
    intro nm pos h
    rw [List.get?_eq_getElem?] at hget
    simp [fromIterLoop, hmfd, hget, hv] at h
  | case9 arg rest index named positional hmfd allowed hget v hv ih =>
    intro nm pos h
    simp only [fromIterLoop, hmfd] at h
    rw [hget] at h
    have h' : fromIterLoop pf ps pt fd rest (index + 1) named (positional ++ [v]) =
        Except.ok (nm, pos) := by
      have hstep : (match allowed.parse pf ps arg with
          | none => (Except.error
              (ArgumentError.invalidPositionalValue positional.length index) :
              Except ArgumentError (List (String × Variant) × List Variant))
          | some v => fromIterLoop pf ps pt fd rest (index + 1) named (positional ++ [v])) =
          Except.ok (nm, pos) := h
      rw [hv] at hstep
      exact hstep
    obtain ⟨vs', hs', hp'⟩ := ih nm pos h'
    have hlt : positional.length < pt.length := by
      rcases List.get?_eq_some.mp hget with ⟨hl, _⟩
      exact hl
    have helem : pt[positional.length] = allowed := by
      have hg := hget
      rw [List.get?_eq_getElem?, List.getElem?_eq_getElem hlt] at hg
      injection hg
    have hdrop : pt.drop positional.length = allowed :: pt.drop (positional.length + 1) := by
      rw [List.drop_eq_getElem_cons hlt, helem]
    have hlen2 : (positional ++ [v]).length = positional.length + 1 := by simp
    rw [hlen2] at hs'
    refine ⟨v :: vs', ?_, ?_⟩
    · rw [show posToks fd (arg :: rest) = arg :: posToks fd rest from by
        simp [posToks, hmfd], hdrop]
      simp only [seqParse, hv, hs', Option.map_some']
    · rw [hp']
      simp

/-- C7: last-write-wins.  On any successful parse, the final binding of a
flag name equals the fold of the loop's chronological (name, value) write
sequence, so a name written more than once ends with the value resolved from
the last occurrence's value token (and `namedWrites` shows each non-unit
write is the parse of its occurrence's value token). -/
theorem c7_last_write_wins :
    ∀ (pf : String → Option Int) (ps : String → Option SocketAddr)
      (pt : List VariantFlag) (fd : List FlagDefinition) (binary : String)
      (rest : List String) (a : Args),
      fromIter pf ps pt fd (binary :: rest) = Except.ok a →
      ∀ n, getNamed a.named n = lastWriteFrom none n (namedWrites pf ps fd rest) := by
  intro pf ps pt fd binary rest a h n
  obtain ⟨nm, pos, hl, ha, hlen⟩ := fromIter_ok_elim pf ps pt fd h
  subst ha
  exact loop_getNamed pf ps pt fd rest 1 [] [] nm pos hl n

/-- Witness for C7: `--num 1 --num 2` ends with `num` bound to `Int 2`, the
fold of the concrete write sequence. -/
theorem c7_last_write_wins_witness :
    getNamed [("num", Variant.int 2)] "num" =
      lastWriteFrom none "num" (namedWrites (fun _ => none) (fun _ => none)
        [⟨"num", none, VariantFlag.int⟩] ["--num", "1", "--num", "2"]) ∧
    getNamed [("num", Variant.int 2)] "num" = some (Variant.int 2) :=
  ⟨c7_last_write_wins (fun _ => none) (fun _ => none) [] [⟨"num", none, VariantFlag.int⟩]
    "prog" ["--num", "1", "--num", "2"] ⟨"prog", [], [("num", Variant.int 2)]⟩ rfl "num",
   rfl⟩

/-- C8: positional binding order.  On any successful parse, the positional
values are exactly the in-order resolution of the positional-classified
token subsequence against the declared constraints (i-th token against i-th
constraint); hence two streams with the same positional token subsequence
yield identical positional value sequences, wherever their flag groups
sit. -/
theorem c8_positional_binding :
    ∀ (pf : String → Option Int) (ps : String → Option SocketAddr)
      (pt : List VariantFlag) (fd : List FlagDefinition),
      (∀ binary rest a, fromIter pf ps pt fd (binary :: rest) = Except.ok a →
        seqParse pf ps pt (posToks fd rest) = some a.positional) ∧
      (∀ b1 r1 b2 r2 a1 a2, posToks fd r1 = posToks fd r2 →
        fromIter pf ps pt fd (b1 :: r1) = Except.ok a1 →
        fromIter pf ps pt fd (b2 :: r2) = Except.ok a2 →
        a1.positional = a2.positional) := by
  intro pf ps pt fd
  have key : ∀ binary rest a, fromIter pf ps pt fd (binary :: rest) = Except.ok a →
      seqParse pf ps pt (posToks fd rest) = some a.positional := by
    intro binary rest a h
    obtain ⟨nm, pos, hl, ha, hlen⟩ := fromIter_ok_elim pf ps pt fd h
    obtain ⟨vs, hs, hp⟩ := loop_positional pf ps pt fd rest 1 [] [] nm pos hl
    subst ha
    have hpv : pos = vs := by simpa using hp
    subst hpv
    simpa using hs
  refine ⟨key, ?_⟩
  intro b1 r1 b2 r2 a1 a2 hpt h1 h2
  have k1 := key b1 r1 a1 h1
  have k2 := key b2 r2 a2 h2
  rw [hpt, k2] at k1
  exact (Option.some.inj k1).symm

/-- Witness for C8: with schema `[Int]` plus a unit flag, the stream
`-v 5` binds its sole positional token to the Int constraint. -/
theorem c8_positional_binding_witness :
    seqParse (fun _ => none) (fun _ => none) [VariantFlag.int]
      (posToks [⟨"verbose", some 'v', VariantFlag.new_unit⟩] ["-v", "5"]) =
      some [Variant.int 5] :=
  (c8_positional_binding (fun _ => none) (fun _ => none) [VariantFlag.int]
    [⟨"verbose", some 'v', VariantFlag.new_unit⟩]).1 "prog" ["-v", "5"]
    ⟨"prog", [Variant.int 5], [("verbose", Variant.bool true)]⟩ rfl
